import Mathlib

/-!
Verification of the push-to-talk voice-typing tool
(`src/tools/voice-type/voice-type.py`, the current variant, and
`src/voice-type/voice-type.py`, the legacy variant).

The development shallowly embeds the session-orchestration core:

* Python strings are embedded as `List Char` (`Chars`); `str.split()`,
  `str.lstrip()`, `str.rstrip()`, `str.strip()` and `str.join` are embedded
  over that representation.
* `_wrap_preview` of both variants is embedded verbatim
  (`wrap_preview`, `wrap_preview_legacy`).
* The `Recorder` classes of both variants are embedded as explicit state
  machines driven by `start` / `stop` / hardware-callback events.
* `transcribe`, `paste_text` and the `_finish` finalize task are embedded
  as functions producing ordered effect traces; the outcome of the external
  Whisper model call is a parameter (`Except` value).
* `StreamingTranscriber._loop` is embedded per cycle: the values the cycle
  reads from shared state (`self._active` at each checkpoint, the loaded
  stream model, the peeked audio length, the model-call result) are an
  observation record, and a loop run folds cycles over a list of
  observations.
* The hotkey worker's edge handling is embedded as a step function on the
  machine state, emitting the primitive events in the order the source
  statements execute; loop-tail interleavings model the shared
  `_active` / `_last_text` fields written from the streaming thread.
-/

/-! ## Python string primitives -/

/-- Python strings as lists of characters. -/
abbrev Chars := List Char

/-- Whitespace for `str.split()` / `str.strip()` (the ASCII whitespace
characters Python treats as separators). -/
def isPySpace (c : Char) : Bool :=
  c = ' ' || c = '\t' || c = '\n' || c = '\r' ||
  c = Char.ofNat 11 || c = Char.ofNat 12

/-- Helper for `str.split()`: accumulates the current word (reversed). -/
def pySplitAux : Chars → Chars → List Chars
  | [], cur => if cur = [] then [] else [cur.reverse]
  | c :: rest, cur =>
    if isPySpace c then
      if cur = [] then pySplitAux rest [] else cur.reverse :: pySplitAux rest []
    else pySplitAux rest (c :: cur)

/-- Python `text.split()` (no argument): split on whitespace runs,
discarding empty pieces. -/
def pySplit (s : Chars) : List Chars := pySplitAux s []

/-- Python `str.lstrip()`. -/
def lstrip (s : Chars) : Chars := s.dropWhile isPySpace

/-- Python `str.rstrip()`. -/
def rstrip (s : Chars) : Chars := (s.reverse.dropWhile isPySpace).reverse

/-- Python `str.strip()`. -/
def pyStrip (s : Chars) : Chars := rstrip (lstrip s)

/-- Python `sep.join(pieces)`. -/
def joinWith (sep : Chars) : List Chars → Chars
  | [] => []
  | [x] => x
  | x :: y :: xs => x ++ sep ++ joinWith sep (y :: xs)

/-- Number of newline characters in a string. -/
def countNl (s : Chars) : Nat := s.countP (fun c => c = '\n')

/-- Python `result.replace("\n", " ")`. -/
def replaceNl (s : Chars) : Chars := s.map (fun c => if c = '\n' then ' ' else c)

/-- Python `lines[-2:]`. -/
def lastTwo (xs : List Chars) : List Chars := xs.drop (xs.length - 2)

/-! ## `_wrap_preview`

`src/tools/voice-type/voice-type.py` lines 529-550 (`_MAX_PREVIEW_CHARS = 58`)
and `src/voice-type/voice-type.py` lines 311-330 (`_MAX_PREVIEW_CHARS = 55`).
-/

/-- The word-wrap loop of the current variant's `_wrap_preview`:
`for w in words: if current and len(current) + 1 + len(w) > MAX:
lines.append(current); current = w else: current = (current + " " + w).lstrip()`
followed by the trailing `if current: lines.append(current)`. -/
def buildLines (maxChars : Nat) : List Chars → List Chars → Chars → List Chars
  | [], lines, current => if current = [] then lines else lines ++ [current]
  | w :: ws, lines, current =>
    if current ≠ [] ∧ current.length + 1 + w.length > maxChars then
      buildLines maxChars ws (lines ++ [current]) w
    else
      buildLines maxChars ws lines (lstrip (current ++ ' ' :: w))

/-- `_wrap_preview` of `src/tools/voice-type/voice-type.py`: build all wrapped
lines, show only the last two (`lines[-2:]`), with a leading ellipsis when
earlier lines scrolled off. -/
def wrap_preview (text : Chars) : Chars :=
  if text = [] then [] else
  let lines := buildLines 58 (pySplit text) [] []
  if lines = [] then [] else
  (if lines.length > 2 then ['…'] else []) ++ joinWith ['\n'] (lastTwo lines)

/-- The word-wrap loop of the legacy variant's `_wrap_preview`: same as
`buildLines` but with `if len(lines) == 2: break` after an append, and the
trailing append guarded by `len(lines) < 2`. -/
def buildLinesLegacy (maxChars : Nat) : List Chars → List Chars → Chars → List Chars
  | [], lines, current =>
    if current ≠ [] ∧ lines.length < 2 then lines ++ [current] else lines
  | w :: ws, lines, current =>
    if current ≠ [] ∧ current.length + 1 + w.length > maxChars then
      if (lines ++ [current]).length = 2 then lines ++ [current]
      else buildLinesLegacy maxChars ws (lines ++ [current]) w
    else
      buildLinesLegacy maxChars ws lines (lstrip (current ++ ' ' :: w))

/-- `_wrap_preview` of `src/voice-type/voice-type.py`: wrap to at most two
lines of 55 characters, appending an ellipsis when the wrapped text is
shorter than the full word sequence. -/
def wrap_preview_legacy (text : Chars) : Chars :=
  if text = [] then [] else
  let words := pySplit text
  let lines := buildLinesLegacy 55 words [] []
  let result := joinWith ['\n'] lines
  if (joinWith [' '] words).length > (replaceNl result).length
  then rstrip result ++ ['…'] else result

example : wrap_preview ['h', 'i', ' ', 't', 'h', 'e', 'r', 'e'] =
    ['h', 'i', ' ', 't', 'h', 'e', 'r', 'e'] := by decide

example : wrap_preview_legacy [' ', '\t', ' '] = [] := by decide

/-! ## UI commands, tray states and effect traces

`Overlay.show_rec` / `show_processing` / `hide` / `quit` enqueue exactly one
command each onto the overlay's thread-safe queue; a published `UICmd` stands
for one such enqueue.  `TrayIcon.set_state` updates are recorded as
`Eff.tray` effects.
-/

/-- Commands on the overlay's command queue (`Overlay._cmd_queue` entries:
`("rec", preview)`, `("processing", preview)`, `("hide", "")`,
`("quit", "")`). -/
inductive UICmd
  | showRec (preview : Chars)
  | showProcessing (preview : Chars)
  | hide
  | quit
  deriving DecidableEq, Repr

/-- Tray states passed to `TrayIcon.set_state`. -/
inductive TrayState
  | idle
  | recording
  | processing
  deriving DecidableEq, Repr

/-- Observable effects of the finalize task in execution order.
`pasteCall` records an invocation of the text-injection collaborator
(`paste_text`); `inject` records the actual OS-level text delivery
(`_send_text_input` / clipboard paste) performed inside it. -/
inductive Eff
  | cmd (c : UICmd)
  | tray (s : TrayState)
  | pasteCall (t : Chars)
  | inject (t : Chars)
  deriving DecidableEq, Repr

/-! ## Transcription and injection

`transcribe` (both variants, identical code): bail out with `""` when the
clip is shorter than 0.3 s (at 16 kHz and with IEEE-754 `len/16000 < 0.3`
this is `len < 4800` samples), otherwise call the final model.  The external
model call either returns segments or raises; this outcome is the
`modelResult` parameter.  The returned `Bool` records whether the model
(`get_model()` + `model.transcribe`) was invoked at all.
-/

/-- `" ".join(s.text.strip() for s in segs).strip()` — the post-processing
applied to model segments, shared by `transcribe` and
`StreamingTranscriber._loop`. -/
def segsText (segs : List Chars) : Chars :=
  pyStrip (joinWith [' '] (segs.map pyStrip))

/-- `transcribe(audio)` of `voice-type.py`, abstracted over the external
model call's outcome. -/
def transcribe (audioLen : Nat) (modelResult : Except Unit (List Chars)) :
    Except Unit Chars × Bool :=
  if audioLen < 4800 then (Except.ok [], false)
  else
    match modelResult with
    | Except.error e => (Except.error e, true)
    | Except.ok segs => (Except.ok (segsText segs), true)

/-- `paste_text(text)`: early-return when `text.strip()` is empty, otherwise
deliver the text to the focused window. -/
def paste_text (text : Chars) : List Eff :=
  if pyStrip text = [] then [] else [Eff.inject text]

/-- The `_finish` finalize task spawned on the hotkey-up edge, as a function
of the captured preview string and of the outcome of `transcribe(audio)`
(`Except.error` models the call raising; the handler sets `text = ""`).
Effects appear in the order the source statements execute:
`overlay.show_processing(preview)`, `tray.set_state("processing")`,
the guarded transcription, `overlay.hide()`, `tray.set_state("idle")`,
and `paste_text(text)` only when `text` is non-empty. -/
def finish (preview : Chars) (tr : Except Unit Chars) : List Eff :=
  let text : Chars := match tr with | Except.ok t => t | Except.error _ => []
  Eff.cmd (UICmd.showProcessing preview) :: Eff.tray TrayState.processing ::
  Eff.cmd UICmd.hide :: Eff.tray TrayState.idle ::
  (if text = [] then [] else Eff.pasteCall text :: paste_text text)

/-- Number of invocations of the text-injection collaborator in a trace. -/
def countPaste (effs : List Eff) : Nat :=
  effs.countP (fun e => match e with | Eff.pasteCall _ => true | _ => false)

/-- The last tray state set by a trace. -/
def lastTray (effs : List Eff) : Option TrayState :=
  (effs.filterMap (fun e => match e with | Eff.tray s => some s | _ => none)).getLast?

/-! ## The audio recorders

Current variant (`src/tools/voice-type/voice-type.py` lines 744-801): the
`sd.InputStream` is opened and started once in `Recorder.__init__` and never
touched again; `start()` / `stop()` only toggle `_recording` and reset
`_frames`; the hardware callback appends a block only while `_recording`.
The `stream` field carries the identity of the stream object opened at
construction.

Legacy variant (`src/voice-type/voice-type.py` lines 440-482): `start()`
opens (and starts) a fresh `sd.InputStream` and `stop()` stops, closes and
drops it.  The legacy callback appends unconditionally, but `sounddevice`
only delivers callbacks while a stream object is open and started, so a
callback event is a no-op when `stream = none` (no stream exists to deliver
it).
-/

/-- State of the current variant's `Recorder`. -/
structure RecorderState where
  recording : Bool
  frames : List (List Int)
  stream : Nat
  deriving DecidableEq, Repr

/-- Events driving a `Recorder`: `start()`, `stop()`, and a hardware
callback delivering one block. -/
inductive RecEvent
  | start
  | stop
  | callback (block : List Int)
  deriving DecidableEq, Repr

/-- `Recorder.__init__`: empty frame list, not recording, stream 0 opened. -/
def Recorder.init : RecorderState := ⟨false, [], 0⟩

/-- One event of the current variant's `Recorder`. -/
def Recorder.step (st : RecorderState) : RecEvent → RecorderState
  | RecEvent.start => { st with recording := true, frames := [] }
  | RecEvent.stop => { st with recording := false }
  | RecEvent.callback b =>
    if st.recording then { st with frames := st.frames ++ [b] } else st

/-- Run a `Recorder` from construction through a list of events. -/
def Recorder.run (es : List RecEvent) : RecorderState :=
  es.foldl Recorder.step Recorder.init

/-- `Recorder.peek()`: non-destructive concatenation of all frames. -/
def Recorder.peek (st : RecorderState) : List Int := st.frames.flatten

/-- State of the legacy variant's `Recorder`: the per-session stream (with
its identity) and the frame list. -/
structure LegacyRecorderState where
  stream : Option Nat
  frames : List (List Int)
  deriving DecidableEq, Repr

/-- Events driving the legacy `Recorder`; `start` carries the identity of
the freshly opened stream. -/
inductive LegacyEvent
  | start (id : Nat)
  | stop
  | callback (block : List Int)
  deriving DecidableEq, Repr

/-- Legacy `Recorder.__init__`: no stream yet. -/
def LegacyRecorder.init : LegacyRecorderState := ⟨none, []⟩

/-- One event of the legacy `Recorder`. -/
def LegacyRecorder.step (st : LegacyRecorderState) : LegacyEvent → LegacyRecorderState
  | LegacyEvent.start id => ⟨some id, []⟩
  | LegacyEvent.stop => { st with stream := none }
  | LegacyEvent.callback b =>
    if st.stream.isSome then { st with frames := st.frames ++ [b] } else st

/-- Run the legacy `Recorder` from construction through a list of events. -/
def LegacyRecorder.run (es : List LegacyEvent) : LegacyRecorderState :=
  es.foldl LegacyRecorder.step LegacyRecorder.init

/-- Legacy `Recorder.peek()`. -/
def LegacyRecorder.peek (st : LegacyRecorderState) : List Int := st.frames.flatten

/-! ## The streaming preview loop

`StreamingTranscriber._loop` (`src/tools/voice-type/voice-type.py` lines
852-878).  Each iteration of the `while self._active:` loop reads shared
state at fixed checkpoints: `self._active` at the top of the loop, the
result of `get_stream_model()` (a plain field read, no lock, `None` while
the stream model is still loading), the length of `self._recorder.peek()`,
`self._active` again just before the model call, the model call's segments,
and `self._active` once more just after the model call.  The values those
reads return are collected in a `CycleObs`; since the flag is written only
by other threads (`stop()` / `start()`), an arbitrary observation sequence
covers every interleaving.  `16000 * 0.8 == 12800.0` exactly in IEEE-754
doubles, so the duration gate is `audioLen ≥ 12800`.

The legacy `_loop` (`src/voice-type/voice-type.py` lines 533-550) has the
same checkpoint structure with the model always present (it calls the
shared `transcribe`, which blocks until the single model is loaded); the
liveness-check behaviour proved below is common to both shapes.
-/

/-- The shared-state values one loop iteration reads, in program order. -/
structure CycleObs where
  activeAtTop : Bool
  modelLoaded : Option Unit
  audioLen : Nat
  activePre : Bool
  segs : List Chars
  activePost : Bool
  deriving DecidableEq, Repr

/-- Result of one loop iteration: the overlay commands it enqueued, the
value of `self._last_text` afterwards, whether the `while` loop proceeds to
another iteration, and whether the stream model was invoked. -/
structure CycleResult where
  published : List UICmd
  lastText : Chars
  keepGoing : Bool
  modelCalled : Bool
  deriving DecidableEq, Repr

/-- One iteration of `StreamingTranscriber._loop`. -/
def loopCycle (obs : CycleObs) (lt : Chars) : CycleResult :=
  if !obs.activeAtTop then ⟨[], lt, false, false⟩
  else
    match obs.modelLoaded with
    | none => ⟨[], lt, true, false⟩
    | some _ =>
      if obs.audioLen ≥ 12800 then
        if !obs.activePre then ⟨[], lt, false, false⟩
        else
          let text := segsText obs.segs
          if !obs.activePost then ⟨[], lt, false, true⟩
          else ⟨[UICmd.showRec (wrap_preview text)], text, true, true⟩
      else ⟨[], lt, true, false⟩

/-- All overlay commands published by successive loop iterations, stopping
as soon as an iteration exits the `while` loop. -/
def loopRun (lt : Chars) : List CycleObs → List UICmd
  | [] => []
  | obs :: rest =>
    let r := loopCycle obs lt
    if r.keepGoing then r.published ++ loopRun r.lastText rest else r.published

/-! ## The hotkey worker

`hotkey_worker` (`src/tools/voice-type/voice-type.py` lines 911-960; the
legacy variant lines 581-628 is identical in the embedded respects).  Each
poll compares the sampled key level against `was_down`.  On a down-edge the
handler checks `tray.enabled` and, when enabled, runs
`tray.set_state("recording")`, `overlay.show_rec()`, `recorder.start()`,
`streamer.start()` (which sets `_active = True` and `_last_text = ""`).
On an up-edge the handler checks `tray.enabled` and, when enabled, runs
`recorder.stop()`, `streamer.stop()` (sets `_active = False`), evaluates
the default argument `preview=streamer.last_preview`
(`_wrap_preview(self._last_text)`) while executing the `def _finish`
statement, and spawns the finalize thread.  Events are emitted in exactly
that statement order.
-/

/-- Primitive events of the hotkey worker's edge handling, in execution
order. -/
inductive Ev
  | tray (s : TrayState)
  | cmd (c : UICmd)
  | recStart
  | recStop
  | strStart
  | strStop
  | readPreview (p : Chars)
  | spawnFinish (p : Chars)
  deriving DecidableEq, Repr

/-- Shared state touched by the hotkey worker: the edge-detection latch,
the recorder's armed flag, and the streamer's liveness flag and stored
preview text (`StreamingTranscriber._active` / `_last_text`). -/
structure Mach where
  wasDown : Bool
  recRecording : Bool
  streamerActive : Bool
  lastText : Chars
  deriving DecidableEq, Repr

/-- State at process start: idle, nothing armed. -/
def Mach.init : Mach := ⟨false, false, false, []⟩

/-- One iteration of the hotkey polling loop, given the sampled
`tray.enabled` flag and key level. -/
def hotkeyStep (enabled isDown : Bool) (m : Mach) : Mach × List Ev :=
  if isDown && !m.wasDown then
    if !enabled then ({ m with wasDown := isDown }, [])
    else
      ({ wasDown := isDown, recRecording := true,
         streamerActive := true, lastText := [] },
       [Ev.tray TrayState.recording, Ev.cmd (UICmd.showRec []),
        Ev.recStart, Ev.strStart])
  else if !isDown && m.wasDown then
    if enabled then
      ({ m with wasDown := isDown, recRecording := false,
                streamerActive := false },
       [Ev.recStop, Ev.strStop,
        Ev.readPreview (wrap_preview m.lastText),
        Ev.spawnFinish (wrap_preview m.lastText)])
    else ({ m with wasDown := isDown }, [])
  else ({ m with wasDown := isDown }, [])

/-- Interleaved operations on the shared state: a hotkey poll, or the tail
of a streaming-loop iteration whose model call just returned `t` — the code
after the call: `if not self._active: break`, then `self._last_text = text;
self._overlay.show_rec(_wrap_preview(text))`. -/
inductive SysOp
  | poll (enabled isDown : Bool)
  | loopTail (t : Chars)
  deriving DecidableEq, Repr

/-- Execute one interleaved operation. -/
def sysStep (m : Mach) : SysOp → Mach × List Ev
  | SysOp.poll e d => hotkeyStep e d m
  | SysOp.loopTail t =>
    if m.streamerActive then
      ({ m with lastText := t }, [Ev.cmd (UICmd.showRec (wrap_preview t))])
    else (m, [])

/-- Execute a schedule of interleaved operations, collecting events. -/
def sysRun : Mach → List SysOp → Mach × List Ev
  | m, [] => (m, [])
  | m, op :: ops =>
    let s := sysStep m op
    let rest := sysRun s.1 ops
    (rest.1, s.2 ++ rest.2)

/-! ## String lemmas for `_wrap_preview` -/

lemma countNl_append (a b : Chars) : countNl (a ++ b) = countNl a + countNl b := by
  simp [countNl, List.countP_append]

lemma countNl_cons (a : Char) (t : Chars) :
    countNl (a :: t) = countNl t + (if a = '\n' then 1 else 0) := by
  simp [countNl, List.countP_cons]

lemma countNl_dropWhile_le (p : Char → Bool) (l : Chars) :
    countNl (l.dropWhile p) ≤ countNl l := by
  induction l with
  | nil => simp [List.dropWhile]
  | cons a t ih =>
    rw [List.dropWhile_cons]
    by_cases hp : p a
    · simp only [hp, if_true]
      refine le_trans ih ?_
      rw [countNl_cons]
      omega
    · simp [hp]

lemma countNl_reverse (l : Chars) : countNl l.reverse = countNl l := by
  simp [countNl, List.countP_reverse]

lemma countNl_rstrip_le (l : Chars) : countNl (rstrip l) ≤ countNl l := by
  unfold rstrip
  calc countNl (l.reverse.dropWhile isPySpace).reverse
      = countNl (l.reverse.dropWhile isPySpace) := countNl_reverse _
    _ ≤ countNl l.reverse := countNl_dropWhile_le _ _
    _ = countNl l := countNl_reverse _

lemma countNl_lstrip_le (l : Chars) : countNl (lstrip l) ≤ countNl l :=
  countNl_dropWhile_le _ l

lemma pySplitAux_space_free :
    ∀ (s cur : Chars), (∀ c ∈ cur, isPySpace c = false) →
      ∀ w ∈ pySplitAux s cur, ∀ c ∈ w, isPySpace c = false := by
  intro s
  induction s with
  | nil =>
    intro cur hcur w hw c hc
    unfold pySplitAux at hw
    by_cases h : cur = []
    · simp [h] at hw
    · rw [if_neg h] at hw
      simp at hw
      subst hw
      exact hcur c (List.mem_reverse.mp hc)
  | cons a t ih =>
    intro cur hcur w hw c hc
    unfold pySplitAux at hw
    by_cases ha : isPySpace a
    · simp only [ha, if_true] at hw
      by_cases h : cur = []
      · rw [if_pos h] at hw
        exact ih [] (by simp) w hw c hc
      · rw [if_neg h] at hw
        rcases List.mem_cons.mp hw with hw | hw
        · subst hw
          exact hcur c (List.mem_reverse.mp hc)
        · exact ih [] (by simp) w hw c hc
    · simp only [Bool.not_eq_true] at ha
      simp only [ha, Bool.false_eq_true, if_false] at hw
      refine ih (a :: cur) ?_ w hw c hc
      intro x hx
      rcases List.mem_cons.mp hx with hx | hx
      · subst hx; exact ha
      · exact hcur x hx

lemma pySplit_space_free (s : Chars) :
    ∀ w ∈ pySplit s, ∀ c ∈ w, isPySpace c = false :=
  pySplitAux_space_free s [] (by simp)

lemma countNl_eq_zero_of_space_free {w : Chars}
    (h : ∀ c ∈ w, isPySpace c = false) : countNl w = 0 := by
  simp only [countNl, List.countP_eq_zero, decide_eq_true_eq]
  intro c hc hEq
  subst hEq
  exact absurd (h '\n' hc) (by decide)

lemma buildLines_nl (maxChars : Nat) :
    ∀ (ws lines : List Chars) (cur : Chars),
      (∀ w ∈ ws, countNl w = 0) → (∀ l ∈ lines, countNl l = 0) →
      countNl cur = 0 →
      ∀ l ∈ buildLines maxChars ws lines cur, countNl l = 0 := by
  intro ws
  induction ws with
  | nil =>
    intro lines cur hws hlines hcur l hl
    unfold buildLines at hl
    by_cases h : cur = []
    · rw [if_pos h] at hl
      exact hlines l hl
    · rw [if_neg h] at hl
      rcases List.mem_append.mp hl with hl | hl
      · exact hlines l hl
      · simp at hl; subst hl; exact hcur
  | cons w ws ih =>
    intro lines cur hws hlines hcur l hl
    unfold buildLines at hl
    by_cases hc : cur ≠ [] ∧ cur.length + 1 + w.length > maxChars
    · rw [if_pos hc] at hl
      refine ih (lines ++ [cur]) w
        (fun x hx => hws x (List.mem_cons_of_mem _ hx)) ?_
        (hws w (List.mem_cons_self _ _)) l hl
      intro x hx
      rcases List.mem_append.mp hx with hx | hx
      · exact hlines x hx
      · simp at hx; subst hx; exact hcur
    · rw [if_neg hc] at hl
      refine ih lines _
        (fun x hx => hws x (List.mem_cons_of_mem _ hx)) hlines ?_ l hl
      have h1 : countNl (cur ++ ' ' :: w) = 0 := by
        rw [countNl_append, countNl_cons, hcur, hws w (List.mem_cons_self _ _)]
        simp
      have h2 := countNl_lstrip_le (cur ++ ' ' :: w)
      omega

lemma buildLinesLegacy_nl (maxChars : Nat) :
    ∀ (ws lines : List Chars) (cur : Chars),
      (∀ w ∈ ws, countNl w = 0) → (∀ l ∈ lines, countNl l = 0) →
      countNl cur = 0 →
      ∀ l ∈ buildLinesLegacy maxChars ws lines cur, countNl l = 0 := by
  intro ws
  induction ws with
  | nil =>
    intro lines cur hws hlines hcur l hl
    unfold buildLinesLegacy at hl
    by_cases h : cur ≠ [] ∧ lines.length < 2
    · rw [if_pos h] at hl
      rcases List.mem_append.mp hl with hl | hl
      · exact hlines l hl
      · simp at hl; subst hl; exact hcur
    · rw [if_neg h] at hl
      exact hlines l hl
  | cons w ws ih =>
    intro lines cur hws hlines hcur l hl
    unfold buildLinesLegacy at hl
    have hmem : ∀ x ∈ lines ++ [cur], countNl x = 0 := by
      intro x hx
      rcases List.mem_append.mp hx with hx | hx
      · exact hlines x hx
      · simp at hx; subst hx; exact hcur
    by_cases hc : cur ≠ [] ∧ cur.length + 1 + w.length > maxChars
    · rw [if_pos hc] at hl
      by_cases hb : (lines ++ [cur]).length = 2
      · rw [if_pos hb] at hl
        exact hmem l hl
      · rw [if_neg hb] at hl
        exact ih (lines ++ [cur]) w
          (fun x hx => hws x (List.mem_cons_of_mem _ hx)) hmem
          (hws w (List.mem_cons_self _ _)) l hl
    · rw [if_neg hc] at hl
      refine ih lines _
        (fun x hx => hws x (List.mem_cons_of_mem _ hx)) hlines ?_ l hl
      have h1 : countNl (cur ++ ' ' :: w) = 0 := by
        rw [countNl_append, countNl_cons, hcur, hws w (List.mem_cons_self _ _)]
        simp
      have h2 := countNl_lstrip_le (cur ++ ' ' :: w)
      omega

lemma buildLinesLegacy_len (maxChars : Nat) :
    ∀ (ws lines : List Chars) (cur : Chars), lines.length ≤ 1 →
      (buildLinesLegacy maxChars ws lines cur).length ≤ 2 := by
  intro ws
  induction ws with
  | nil =>
    intro lines cur h
    unfold buildLinesLegacy
    split
    · simp; omega
    · omega
  | cons w ws ih =>
    intro lines cur h
    unfold buildLinesLegacy
    split
    · split
      · next hb => rw [hb]
      · next hb =>
        refine ih (lines ++ [cur]) w ?_
        simp only [List.length_append, List.length_cons, List.length_nil] at hb ⊢
        omega
    · exact ih lines _ h

lemma countNl_join_two :
    ∀ ls : List Chars, ls.length ≤ 2 → (∀ l ∈ ls, countNl l = 0) →
      countNl (joinWith ['\n'] ls) ≤ 1 := by
  intro ls hlen hmem
  match ls with
  | [] => simp [joinWith, countNl]
  | [a] =>
    have := hmem a (by simp)
    simp [joinWith, this]
  | [a, b] =>
    have ha := hmem a (by simp)
    have hb := hmem b (by simp)
    show countNl (a ++ ['\n'] ++ joinWith ['\n'] [b]) ≤ 1
    rw [show joinWith ['\n'] [b] = b from rfl, countNl_append, countNl_append, ha, hb]
    decide
  | a :: b :: c :: t =>
    simp only [List.length_cons] at hlen
    omega

lemma lastTwo_length (xs : List Chars) : (lastTwo xs).length ≤ 2 := by
  unfold lastTwo
  rw [List.length_drop]
  omega

/-! ## Claim theorems -/

/-- Claim C10: for every input string, the preview word-wrapping function
(in both variants) returns a string containing at most one newline
character — at most two display lines — and returns the empty string
whenever the input contains no words (empty or whitespace-only input). -/
theorem wrap_preview_two_lines :
    ∀ text : Chars,
      countNl (wrap_preview text) ≤ 1 ∧
      countNl (wrap_preview_legacy text) ≤ 1 ∧
      (pySplit text = [] →
        wrap_preview text = [] ∧ wrap_preview_legacy text = []) := by
  intro text
  refine ⟨?_, ?_, ?_⟩
  · simp only [wrap_preview]
    by_cases ht : text = []
    · simp [ht, countNl]
    · rw [if_neg ht]
      set L := buildLines 58 (pySplit text) [] [] with hdef
      by_cases hl : L = []
      · simp [hl, countNl]
      · rw [if_neg hl]
        have hnl : ∀ l ∈ L, countNl l = 0 := by
          rw [hdef]
          exact buildLines_nl 58 (pySplit text) [] []
            (fun w hw => countNl_eq_zero_of_space_free (pySplit_space_free text w hw))
            (by simp) (by simp [countNl])
        have hvis : ∀ l ∈ lastTwo L, countNl l = 0 := fun l hl' =>
          hnl l (List.mem_of_mem_drop hl')
        have hjoin := countNl_join_two (lastTwo L) (lastTwo_length L) hvis
        rw [countNl_append]
        have hpre : countNl (if L.length > 2 then ['…'] else []) = 0 := by
          split <;> decide
        omega
  · simp only [wrap_preview_legacy]
    by_cases ht : text = []
    · simp [ht, countNl]
    · rw [if_neg ht]
      set L := buildLinesLegacy 55 (pySplit text) [] [] with hdef
      have hlen : L.length ≤ 2 := by
        rw [hdef]; exact buildLinesLegacy_len 55 (pySplit text) [] [] (by simp)
      have hnl : ∀ l ∈ L, countNl l = 0 := by
        rw [hdef]
        exact buildLinesLegacy_nl 55 (pySplit text) [] []
          (fun w hw => countNl_eq_zero_of_space_free (pySplit_space_free text w hw))
          (by simp) (by simp [countNl])
      have hres := countNl_join_two L hlen hnl
      split
      · rw [countNl_append]
        have h1 := countNl_rstrip_le (joinWith ['\n'] L)
        have h2 : countNl ['…'] = 0 := by decide
        omega
      · exact hres
  · intro hsplit
    constructor
    · simp only [wrap_preview]
      by_cases ht : text = []
      · simp [ht]
      · rw [if_neg ht, hsplit]
        simp [buildLines]
    · simp only [wrap_preview_legacy]
      by_cases ht : text = []
      · simp [ht]
      · rw [if_neg ht, hsplit]
        simp [buildLinesLegacy, joinWith, replaceNl]

/-- Witness for C10 at a whitespace-only input. -/
theorem wrap_preview_two_lines_witness :
    pySplit [' '] = [] ∧ wrap_preview [' '] = [] ∧
      wrap_preview_legacy [' '] = [] :=
  ⟨by decide, ((wrap_preview_two_lines [' ']).2.2 (by decide)).1,
   ((wrap_preview_two_lines [' ']).2.2 (by decide)).2⟩

/-- Claim C1: once the hotkey-up edge is taken, the finalize task publishes
`ShowProcessing(preview)` first, later publishes `Hide` and sets the tray
back to idle — also when the transcription call raises (`Except.error`),
which is caught and treated as empty text — and it invokes the
text-injection collaborator exactly once iff the resulting text is
non-empty. -/
theorem finish_session_outcome :
    ∀ (preview : Chars) (tr : Except Unit Chars),
      (finish preview tr).take 4 =
        [Eff.cmd (UICmd.showProcessing preview), Eff.tray TrayState.processing,
         Eff.cmd UICmd.hide, Eff.tray TrayState.idle] ∧
      finish preview (Except.error ()) = finish preview (Except.ok []) ∧
      lastTray (finish preview tr) = some TrayState.idle ∧
      countPaste (finish preview tr) =
        (match tr with
         | Except.ok t => if t = [] then 0 else 1
         | Except.error _ => 0) := by
  intro preview tr
  refine ⟨?_, rfl, ?_, ?_⟩
  · cases tr with
    | ok t =>
      by_cases ht : t = [] <;> simp [finish, ht]
    | error e => simp [finish]
  · cases tr with
    | ok t =>
      by_cases ht : t = []
      · simp [finish, ht, lastTray]
      · by_cases hs : pyStrip t = [] <;>
          simp [finish, ht, lastTray, paste_text, hs]
    | error e => simp [finish, lastTray]
  · cases tr with
    | ok t =>
      by_cases ht : t = []
      · simp [finish, ht, countPaste]
      · by_cases hs : pyStrip t = [] <;>
          simp [finish, ht, countPaste, paste_text, hs]
    | error e => simp [finish, countPaste]

/-! ## Recorder lemmas -/

lemma Recorder.stream_const :
    ∀ (es : List RecEvent) (st : RecorderState),
      (es.foldl Recorder.step st).stream = st.stream := by
  intro es
  induction es with
  | nil => intro st; rfl
  | cons e es ih =>
    intro st
    rw [List.foldl_cons, ih]
    cases e with
    | start => rfl
    | stop => rfl
    | callback b =>
      simp only [Recorder.step]
      split <;> rfl

lemma recorder_foldl_no_start :
    ∀ (es : List RecEvent) (st : RecorderState),
      RecEvent.start ∉ es → st.recording = false →
      es.foldl Recorder.step st = st := by
  intro es
  induction es with
  | nil => intro st _ _; rfl
  | cons e es ih =>
    intro st hne hrec
    rw [List.foldl_cons]
    have hstep : Recorder.step st e = st := by
      cases e with
      | start => exact absurd (List.mem_cons_self _ _) hne
      | stop => cases st; simp_all [Recorder.step]
      | callback b => simp [Recorder.step, hrec]
    rw [hstep]
    exact ih st (fun h => hne (List.mem_cons_of_mem _ h)) hrec

lemma legacy_foldl_no_start :
    ∀ (es : List LegacyEvent) (st : LegacyRecorderState),
      (∀ id, LegacyEvent.start id ∉ es) → st.stream = none →
      es.foldl LegacyRecorder.step st = st := by
  intro es
  induction es with
  | nil => intro st _ _; rfl
  | cons e es ih =>
    intro st hne hstream
    rw [List.foldl_cons]
    have hstep : LegacyRecorder.step st e = st := by
      cases e with
      | start id => exact absurd (List.mem_cons_self _ _) (hne id)
      | stop => cases st; simp_all [LegacyRecorder.step]
      | callback b => simp [LegacyRecorder.step, hstream]
    rw [hstep]
    exact ih st (fun id h => hne id (List.mem_cons_of_mem _ h)) hstream

/-- Claim C7: `peek()` after a `start()` never returns samples recorded
before that `start()` — the whole recorder state after
`es1 ++ start :: es2` equals the state after `start :: es2` alone, in both
variants — and `peek()` before any `start()` returns the empty sequence. -/
theorem peek_isolated_per_start :
    (∀ es1 es2 : List RecEvent,
       Recorder.run (es1 ++ RecEvent.start :: es2) =
         Recorder.run (RecEvent.start :: es2)) ∧
    (∀ es : List RecEvent, RecEvent.start ∉ es →
       Recorder.peek (Recorder.run es) = []) ∧
    (∀ (es1 es2 : List LegacyEvent) (id : Nat),
       LegacyRecorder.run (es1 ++ LegacyEvent.start id :: es2) =
         LegacyRecorder.run (LegacyEvent.start id :: es2)) ∧
    (∀ es : List LegacyEvent, (∀ id, LegacyEvent.start id ∉ es) →
       LegacyRecorder.peek (LegacyRecorder.run es) = []) := by
  refine ⟨?_, ?_, ?_, ?_⟩
  · intro es1 es2
    unfold Recorder.run
    rw [List.foldl_append, List.foldl_cons, List.foldl_cons]
    congr 1
    show Recorder.step _ RecEvent.start = Recorder.step _ RecEvent.start
    simp only [Recorder.step]
    rw [Recorder.stream_const]
  · intro es hne
    unfold Recorder.run
    rw [recorder_foldl_no_start es Recorder.init hne rfl]
    rfl
  · intro es1 es2 id
    unfold LegacyRecorder.run
    rw [List.foldl_append, List.foldl_cons, List.foldl_cons]
    rfl
  · intro es hne
    unfold LegacyRecorder.run
    rw [legacy_foldl_no_start es LegacyRecorder.init hne rfl]
    rfl

/-- Witness for C7: a stop and a callback before a start are erased by the
start; without any start, peek is empty. -/
theorem peek_isolated_per_start_witness :
    RecEvent.start ∉ [RecEvent.stop, RecEvent.callback [3]] ∧
    Recorder.peek (Recorder.run [RecEvent.stop, RecEvent.callback [3]]) = [] ∧
    Recorder.run ([RecEvent.callback [5]] ++ RecEvent.start :: [RecEvent.callback [7]]) =
      Recorder.run (RecEvent.start :: [RecEvent.callback [7]]) :=
  ⟨by decide, peek_isolated_per_start.2.1 _ (by decide),
   peek_isolated_per_start.1 [RecEvent.callback [5]] [RecEvent.callback [7]]⟩

/-- Counterexample to claim C4: in the legacy variant
(`src/voice-type/voice-type.py`), no stream is open at construction,
`start()` opens a fresh stream for the session, `stop()` closes it, and a
later `start()` opens a different stream — the stream is per-session, not
process-lifetime. -/
theorem legacy_recorder_stream_cex :
    LegacyRecorder.init.stream = none ∧
    (LegacyRecorder.run [LegacyEvent.start 1]).stream = some 1 ∧
    (LegacyRecorder.run [LegacyEvent.start 1, LegacyEvent.stop]).stream = none ∧
    (LegacyRecorder.run [LegacyEvent.start 1, LegacyEvent.stop,
        LegacyEvent.start 2]).stream = some 2 :=
  ⟨rfl, rfl, rfl, rfl⟩

/-- Claim C4 as amended: in the current variant
(`src/tools/voice-type/voice-type.py`) the stream is opened once at
construction and no event sequence ever changes it; `start()` and `stop()`
touch only the recording flag and the frame list.  In the legacy variant
(`src/voice-type/voice-type.py`) there is no stream before the first
session: `start()` opens a fresh stream and `stop()` closes it. -/
theorem stream_lifetime_by_variant :
    (∀ es : List RecEvent, (Recorder.run es).stream = Recorder.init.stream) ∧
    (∀ st : RecorderState,
       Recorder.step st RecEvent.start =
         { st with recording := true, frames := [] } ∧
       Recorder.step st RecEvent.stop = { st with recording := false }) ∧
    (∀ (st : LegacyRecorderState) (id : Nat),
       LegacyRecorder.step st (LegacyEvent.start id) = ⟨some id, []⟩ ∧
       (LegacyRecorder.step st LegacyEvent.stop).stream = none) ∧
    LegacyRecorder.init.stream = none := by
  refine ⟨?_, ?_, ?_, rfl⟩
  · intro es; exact Recorder.stream_const es Recorder.init
  · intro st; exact ⟨rfl, rfl⟩
  · intro st id; exact ⟨rfl, rfl⟩

/-! ## Streaming-loop lemmas -/

lemma loopRun_stopped :
    ∀ (lt : Chars) (obs : CycleObs) (post : List CycleObs),
      obs.activePost = false → (∀ o ∈ post, o.activeAtTop = false) →
      loopRun lt (obs :: post) = [] := by
  intro lt obs post hpost htop
  have hrest : ∀ lt', loopRun lt' post = [] := by
    intro lt'
    cases post with
    | nil => rfl
    | cons o rest =>
      have h := htop o (List.mem_cons_self _ _)
      simp [loopRun, loopCycle, h]
  cases hTop : obs.activeAtTop with
  | false => simp [loopRun, loopCycle, hTop]
  | true =>
    cases hm : obs.modelLoaded with
    | none => simp [loopRun, loopCycle, hTop, hm, hrest]
    | some u =>
      by_cases hlen : obs.audioLen ≥ 12800
      · cases hpre : obs.activePre with
        | false => simp [loopRun, loopCycle, hTop, hm, hlen, hpre]
        | true => simp [loopRun, loopCycle, hTop, hm, hlen, hpre, hpost]
      · simp [loopRun, loopCycle, hTop, hm, hlen, hrest]

lemma loopRun_append_of_rest_nil :
    ∀ (pre : List CycleObs) (lt : Chars) (rest : List CycleObs),
      (∀ lt', loopRun lt' rest = []) →
      loopRun lt (pre ++ rest) = loopRun lt pre := by
  intro pre
  induction pre with
  | nil => intro lt rest h; simpa using h lt
  | cons obs pre ih =>
    intro lt rest h
    simp only [List.cons_append, loopRun]
    by_cases hk : (loopCycle obs lt).keepGoing
    · simp only [hk, if_true]
      show (loopCycle obs lt).published ++
          loopRun (loopCycle obs lt).lastText (pre ++ rest) =
        (loopCycle obs lt).published ++ loopRun (loopCycle obs lt).lastText pre
      rw [ih _ rest h]
    · simp [hk]

/-- Claim C2: an iteration that reads the liveness flag as false at the
checkpoint before or after the model call publishes nothing, and once the
flag is observed false after the (at most one) in-flight model call and at
the top of every later iteration — i.e. once `stop()` has taken effect —
the loop publishes nothing further. -/
theorem no_ghost_preview :
    (∀ (obs : CycleObs) (lt : Chars),
       obs.activePre = false ∨ obs.activePost = false →
       (loopCycle obs lt).published = []) ∧
    (∀ (lt : Chars) (pre : List CycleObs) (obs : CycleObs)
       (post : List CycleObs),
       obs.activePost = false → (∀ o ∈ post, o.activeAtTop = false) →
       loopRun lt (pre ++ obs :: post) = loopRun lt pre) := by
  constructor
  · intro obs lt h
    cases hTop : obs.activeAtTop with
    | false => simp [loopCycle, hTop]
    | true =>
      cases hm : obs.modelLoaded with
      | none => simp [loopCycle, hTop, hm]
      | some u =>
        by_cases hlen : obs.audioLen ≥ 12800
        · cases hpre : obs.activePre with
          | false => simp [loopCycle, hTop, hm, hlen, hpre]
          | true =>
            have hpost : obs.activePost = false := by
              rcases h with h | h
              · rw [h] at hpre; exact absurd hpre (by simp)
              · exact h
            simp [loopCycle, hTop, hm, hlen, hpre, hpost]
        · simp [loopCycle, hTop, hm, hlen]
  · intro lt pre obs post h1 h2
    exact loopRun_append_of_rest_nil pre lt (obs :: post)
      (fun lt' => loopRun_stopped lt' obs post h1 h2)

/-- Witness for C2: a live iteration publishes, the iteration whose
post-call check reads false publishes nothing, and nothing follows. -/
theorem no_ghost_preview_witness :
    (CycleObs.mk true (some ()) 16000 true [['h', 'i']] false).activePost = false ∧
    loopRun []
        ([CycleObs.mk true (some ()) 16000 true [['y', 'o']] true] ++
          CycleObs.mk true (some ()) 16000 true [['h', 'i']] false ::
            [CycleObs.mk false none 0 false [] false]) =
      loopRun [] [CycleObs.mk true (some ()) 16000 true [['y', 'o']] true] :=
  ⟨rfl, no_ghost_preview.2 [] _ _ _ rfl (by decide)⟩

/-- Claim C8: while `get_stream_model()` returns `None` (model still
loading), an iteration publishes nothing, calls no model, leaves the
stored preview unchanged and simply proceeds to the next tick (no lock is
taken — `get_stream_model` is a plain field read — so nothing blocks, and
the recorder is untouched); once the model is available a live iteration
with enough audio publishes its preview again. -/
theorem stream_model_loading_noop :
    (∀ (obs : CycleObs) (lt : Chars),
       obs.activeAtTop = true → obs.modelLoaded = none →
       loopCycle obs lt = ⟨[], lt, true, false⟩) ∧
    (∀ (obs : CycleObs) (lt : Chars),
       obs.activeAtTop = true → obs.modelLoaded = some () →
       obs.activePre = true → obs.activePost = true →
       obs.audioLen ≥ 12800 →
       (loopCycle obs lt).published =
         [UICmd.showRec (wrap_preview (segsText obs.segs))] ∧
       (loopCycle obs lt).modelCalled = true) := by
  constructor
  · intro obs lt h1 h2
    simp [loopCycle, h1, h2]
  · intro obs lt h1 h2 h3 h4 h5
    simp [loopCycle, h1, h2, h3, h4, h5]

/-- Witness for C8. -/
theorem stream_model_loading_noop_witness :
    loopCycle (CycleObs.mk true none 99999 true [] true) ['a'] =
      ⟨[], ['a'], true, false⟩ ∧
    (loopCycle (CycleObs.mk true (some ()) 12800 true [['o', 'k']] true) []).published =
      [UICmd.showRec (wrap_preview (segsText [['o', 'k']]))] :=
  ⟨stream_model_loading_noop.1 _ ['a'] rfl rfl,
   (stream_model_loading_noop.2 _ [] rfl rfl rfl rfl (by decide)).1⟩

/-- Claim C9: a session whose captured audio stays below 4800 samples
(0.3 s at 16 kHz; a 0.2 s hotkey hold gives 3200) publishes no preview
command in any loop iteration (the 12800-sample preview gate is never
reached), `transcribe` returns empty text without invoking the model, the
finalize task — still spawned by the up-edge — performs no injection call,
and still publishes `Hide`. -/
theorem short_audio_session :
    ∀ n : Nat, n < 4800 →
      (∀ modelResult, transcribe n modelResult = (Except.ok [], false)) ∧
      (∀ (lt : Chars) (obsList : List CycleObs),
         (∀ o ∈ obsList, o.audioLen ≤ n) → loopRun lt obsList = []) ∧
      (∀ preview : Chars,
         countPaste (finish preview (Except.ok [])) = 0 ∧
         Eff.cmd UICmd.hide ∈ finish preview (Except.ok [])) ∧
      (∀ m : Mach, m.wasDown = true →
         Ev.spawnFinish (wrap_preview m.lastText) ∈ (hotkeyStep true false m).2) := by
  intro n hn
  refine ⟨?_, ?_, ?_, ?_⟩
  · intro modelResult
    simp [transcribe, hn]
  · intro lt obsList
    induction obsList generalizing lt with
    | nil => intro _; rfl
    | cons o rest ih =>
      intro h
      have hlen : ¬ o.audioLen ≥ 12800 := by
        have := h o (List.mem_cons_self _ _)
        omega
      have htail := fun lt' =>
        ih lt' (fun x hx => h x (List.mem_cons_of_mem _ hx))
      cases hTop : o.activeAtTop with
      | false => simp [loopRun, loopCycle, hTop]
      | true =>
        cases hm : o.modelLoaded with
        | none => simp [loopRun, loopCycle, hTop, hm, htail]
        | some u => simp [loopRun, loopCycle, hTop, hm, hlen, htail]
  · intro preview
    constructor
    · simp [finish, countPaste]
    · simp [finish]
  · intro m hw
    simp [hotkeyStep, hw]

/-- Witness for C9 at a 0.2 s (3200-sample) session. -/
theorem short_audio_session_witness :
    3200 < 4800 ∧
    transcribe 3200 (Except.error ()) = (Except.ok [], false) ∧
    loopRun [] [CycleObs.mk true (some ()) 3200 true [] true] = [] :=
  ⟨by decide, (short_audio_session 3200 (by decide)).1 _,
   (short_audio_session 3200 (by decide)).2.1 [] _ (by decide)⟩

/-- Counterexample to claim C3: start a session while enabled
(`hotkeyStep true true` from the idle state), then take the hotkey-up edge
with the flag disabled (`hotkeyStep false false`).  The up-edge handler is
itself guarded by `if tray.enabled:`, so it emits no events at all — the
capture buffer is not disarmed, the preview loop is not stopped, no
finalize task is spawned — and the session is stranded, contradicting the
claim that the flag is consulted only on the down-edge. -/
theorem disabled_upedge_strands_session :
    (hotkeyStep false false (hotkeyStep true true Mach.init).1).2 = [] ∧
    (hotkeyStep false false (hotkeyStep true true Mach.init).1).1.recRecording = true ∧
    (hotkeyStep false false (hotkeyStep true true Mach.init).1).1.streamerActive = true := by
  refine ⟨rfl, rfl, rfl⟩

/-- Claim C3 as amended: the disabled flag is consulted on both hotkey
edges.  If the flag is still enabled at the up-edge, the handler disarms
the capture buffer, stops the preview loop and spawns the finalize task;
if it has been disabled while the session was in progress, the up-edge
handler does nothing — the recorder keeps recording, the preview loop
stays live and no finalize task is spawned (the in-progress session is
stranded, not finalized). -/
theorem upedge_guarded_by_enabled :
    ∀ (m : Mach) (enabled : Bool), m.wasDown = true →
      (enabled = true →
        (hotkeyStep enabled false m).2 =
          [Ev.recStop, Ev.strStop, Ev.readPreview (wrap_preview m.lastText),
           Ev.spawnFinish (wrap_preview m.lastText)] ∧
        (hotkeyStep enabled false m).1.recRecording = false ∧
        (hotkeyStep enabled false m).1.streamerActive = false) ∧
      (enabled = false →
        (hotkeyStep enabled false m).2 = [] ∧
        (hotkeyStep enabled false m).1.recRecording = m.recRecording ∧
        (hotkeyStep enabled false m).1.streamerActive = m.streamerActive ∧
        (hotkeyStep enabled false m).1.lastText = m.lastText) := by
  intro m enabled hw
  constructor
  · intro he; subst he
    refine ⟨?_, ?_, ?_⟩ <;> simp [hotkeyStep, hw]
  · intro he; subst he
    refine ⟨?_, ?_, ?_, ?_⟩ <;> simp [hotkeyStep, hw]

/-- Witness for C3 as amended. -/
theorem upedge_guarded_by_enabled_witness :
    (Mach.mk true true true ['h', 'i']).wasDown = true ∧
    (hotkeyStep false false (Mach.mk true true true ['h', 'i'])).2 = [] :=
  ⟨rfl,
   ((upedge_guarded_by_enabled (Mach.mk true true true ['h', 'i']) false rfl).2 rfl).1⟩

/-- Counterexample to claim C6: on the up-edge trace, the
`streamer.stop()` event (index 1) precedes the read of
`streamer.last_preview` (index 2).  The read is the evaluation of the
default argument `preview=streamer.last_preview`, which happens when the
`def _finish` statement executes — after `streamer.stop()` has already
been called — so the controller does not read the preview before stopping
the loop. -/
theorem preview_read_after_stop_cex :
    (hotkeyStep true false (Mach.mk true true true ['h', 'i'])).2 =
      [Ev.recStop, Ev.strStop, Ev.readPreview ['h', 'i'],
       Ev.spawnFinish ['h', 'i']] ∧
    (hotkeyStep true false (Mach.mk true true true ['h', 'i'])).2.findIdx
        (fun e => e = Ev.strStop) <
      (hotkeyStep true false (Mach.mk true true true ['h', 'i'])).2.findIdx
        (fun e => match e with | Ev.readPreview _ => true | _ => false) := by
  refine ⟨by decide, by decide⟩

/-- Claim C6 as amended: the up-edge handler reads
`streamer.last_preview` immediately after calling `stop()` (while
executing the `def _finish` statement); since `stop()` only clears the
liveness flag and leaves `_last_text` unchanged, the captured value is the
wrap of the stored preview text, and exactly that value is the preview
carried into the finalize task's `ShowProcessing` command. -/
theorem upedge_capture_after_stop :
    ∀ m : Mach, m.wasDown = true →
      (hotkeyStep true false m).2 =
        [Ev.recStop, Ev.strStop, Ev.readPreview (wrap_preview m.lastText),
         Ev.spawnFinish (wrap_preview m.lastText)] ∧
      (hotkeyStep true false m).1.lastText = m.lastText ∧
      (∀ tr : Except Unit Chars,
        (finish (wrap_preview m.lastText) tr).head? =
          some (Eff.cmd (UICmd.showProcessing (wrap_preview m.lastText)))) := by
  intro m hw
  refine ⟨by simp [hotkeyStep, hw], by simp [hotkeyStep, hw], ?_⟩
  intro tr
  simp [finish]

/-- Witness for C6 as amended. -/
theorem upedge_capture_after_stop_witness :
    (Mach.mk true true true ['y', 'o']).wasDown = true ∧
    (hotkeyStep true false (Mach.mk true true true ['y', 'o'])).1.lastText =
      ['y', 'o'] :=
  ⟨rfl, (upedge_capture_after_stop (Mach.mk true true true ['y', 'o']) rfl).2.1⟩

/-- Counterexample to claim C5: the schedule below is a legal interleaving
of the hotkey thread and the streaming thread.  Session N starts, a
preview publishes `"hi"`, the up-edge stops session N, session N+1 starts
(its `streamer.start()` resets `_last_text` to `""` and re-arms the shared
`_active` flag), and then the tail of a session-N loop iteration — whose
model call on session-N audio was in flight across the boundary — runs its
post-call check, finds `_active` true again, stores the session-N text and
publishes it.  The final machine state has `_last_text = "hi"` and the
event trace ends with a `ShowRecording "hi"` published after session
N+1's `strStart`: session-N preview text is stored and published during
session N+1. -/
theorem inflight_preview_carryover_cex :
    sysRun Mach.init
        [SysOp.poll true true, SysOp.loopTail ['h', 'i'], SysOp.poll true false,
         SysOp.poll true true, SysOp.loopTail ['h', 'i']] =
      (Mach.mk true true true ['h', 'i'],
       [Ev.tray TrayState.recording, Ev.cmd (UICmd.showRec []), Ev.recStart,
        Ev.strStart,
        Ev.cmd (UICmd.showRec ['h', 'i']),
        Ev.recStop, Ev.strStop, Ev.readPreview ['h', 'i'],
        Ev.spawnFinish ['h', 'i'],
        Ev.tray TrayState.recording, Ev.cmd (UICmd.showRec []), Ev.recStart,
        Ev.strStart,
        Ev.cmd (UICmd.showRec ['h', 'i'])]) := by
  decide

/-- Claim C5 as amended: `streamer.start()` resets the stored preview text
to the empty string, and while the loop is stopped (`_active` false) a
loop-iteration tail stores and publishes nothing — so preview text cannot
leak across sessions except through a model call in flight across a
`stop()`/`start()` boundary, which finds the shared flag re-armed and may
store and publish the previous session's text. -/
theorem preview_reset_and_stopped_loop_silent :
    (∀ m : Mach, m.wasDown = false →
       (hotkeyStep true true m).1.lastText = [] ∧
       (hotkeyStep true true m).1.streamerActive = true) ∧
    (∀ (m : Mach) (t : Chars), m.streamerActive = false →
       sysStep m (SysOp.loopTail t) = (m, [])) ∧
    (∀ (m : Mach) (ops : List SysOp), m.streamerActive = false →
       (∀ op ∈ ops, ∃ t, op = SysOp.loopTail t) →
       sysRun m ops = (m, [])) := by
  refine ⟨?_, ?_, ?_⟩
  · intro m hw
    constructor <;> simp [hotkeyStep, hw]
  · intro m t hs
    simp [sysStep, hs]
  · intro m ops hs
    induction ops with
    | nil => intro _; rfl
    | cons op rest ih =>
      intro hops
      obtain ⟨t, rfl⟩ := hops op (List.mem_cons_self _ _)
      have hstep : sysStep m (SysOp.loopTail t) = (m, []) := by
        simp [sysStep, hs]
      have hrest := ih (fun op' h' => hops op' (List.mem_cons_of_mem _ h'))
      simp [sysRun, hstep, hrest]

/-- Witness for C5 as amended: after the up-edge stop, loop tails with no
intervening session start publish nothing. -/
theorem preview_reset_and_stopped_loop_silent_witness :
    (Mach.mk false false false []).streamerActive = false ∧
    sysRun (Mach.mk false false false [])
        [SysOp.loopTail ['h', 'i'], SysOp.loopTail ['y', 'o']] =
      (Mach.mk false false false [], []) :=
  ⟨rfl,
   preview_reset_and_stopped_loop_silent.2.2 (Mach.mk false false false [])
     [SysOp.loopTail ['h', 'i'], SysOp.loopTail ['y', 'o']] rfl
     (by
       intro op h
       rcases List.mem_cons.mp h with h | h
       · exact ⟨['h', 'i'], h⟩
       · rcases List.mem_cons.mp h with h | h
         · exact ⟨['y', 'o'], h⟩
         · simp at h)⟩
